import Mathlib

/-!
Verification development for the quiz-judging client (daralhikmajudge).

The pure computational core of the client is embedded shallowly:

* `calculatePoints` — `src/src/pages/JudgePage.tsx`, the judge-side scoring
  function (both copies of the component define the identical function).
* `calculateLeaderboardFromAnswers` — `src/src/pages/HostPage.tsx`, the live
  leaderboard aggregation.
* `endTeamScores` / `endSessionSave` / `upsertSessionResult` — the
  end-of-session result finalization in `src/src/pages/HostPage.tsx` together
  with the upsert wrapper in `src/src/App.tsx`.
* `calculateTeamResults` — the results page (`src/unnamed/part_004`).
* `handleNextTeam` / `handlePreviousTeam`, `handleSendQuestions`,
  `handleSubmitFinal` — the host/judge state transitions in
  `src/src/pages/HostPage.tsx` and `src/src/pages/JudgePage.tsx`.

JavaScript numbers are idealized as rationals (`ℚ`).  The JavaScript
expression `x || d` on numbers (which yields `d` exactly when `x` is falsy,
i.e. `0`, `NaN` or `undefined`) is modelled by `jsOr` on `ℚ` and by
`pointsOrOne` on `Option ℚ` (where `none` models an absent field).  A
division by zero produces `NaN`/`Infinity` in JavaScript; a function whose
result can be such a non-finite number returns `Option ℚ`, with `none`
standing for the non-finite outcome.  `Number(x.toFixed(2))` is modelled by
`toFixed2`, rounding half away from zero exactly as `toFixed` does for the
magnitudes involved.
-/

/-- JavaScript `x || d` for numbers: `d` when `x` is falsy (= 0), else `x`. -/
def jsOr (x d : ℚ) : ℚ := if x = 0 then d else x

/-- JavaScript `p || 1` where `p` is an optional numeric field
(`answer.points || 1` in all three aggregation paths): an absent value and a
stored `0` both yield `1`. -/
def pointsOrOne (p : Option ℚ) : ℚ :=
  match p with
  | some v => if v = 0 then 1 else v
  | none => 1

/-- `Number(x.toFixed(2))`: round to two decimal places, ties away from zero
(for nonnegative values, half up). -/
def toFixed2 (x : ℚ) : ℚ := (round (x * 100) : ℚ) / 100

/-- `QuestionChoice` from `src/src/App.tsx`: a structured weighted choice. -/
structure QuestionChoice where
  text : String
  weight : ℚ
deriving DecidableEq

/-- The `choices` field of a `Question`
(`choices: string[] | QuestionChoice[]` in `src/src/App.tsx`): either the
legacy bare-string form or the structured weighted form. -/
inductive Choices where
  | strs (cs : List String)
  | objs (cs : List QuestionChoice)
deriving DecidableEq

/-- `Question` from `src/src/App.tsx` (fields not read by the modelled
functions are kept where cheap, dropped where irrelevant). -/
structure Question where
  id : String
  text : String
  choices : Choices
  section_ : String
  weight : ℚ
  bank_id : Option String := none
deriving DecidableEq

/-- `Answer` from `src/src/App.tsx`; `points` is optional in the row type. -/
structure Answer where
  id : String
  answer : String
  points : Option ℚ
  question_id : String
  team_id : String
  judge_id : String
  session_id : String
  created_at : Option String := none
deriving DecidableEq

/-- `calculatePoints` from `src/src/pages/JudgePage.tsx`.

```
if (choices.length > 0 && typeof choices[0] === 'object') {
  const selectedChoice = choiceObjects.find(c => c.text === selectedAnswer);
  selectedWeight = selectedChoice?.weight || 0;
  maxWeight = Math.max(...choiceObjects.map(c => c.weight));
} else { selectedWeight = 1; maxWeight = 1; }
const questionWeight = question.weight || 1;
const points = (selectedWeight / maxWeight) * questionWeight;
return Number(points.toFixed(2));
```

The structured branch is taken exactly when the choice list is a nonempty
`QuestionChoice[]`.  When `maxWeight = 0` the JavaScript division produces a
non-finite number (`NaN`/`Infinity`) which `toFixed` leaves non-finite; this
outcome is `none`. -/
def calculatePoints (question : Question) (selectedAnswer : String) : Option ℚ :=
  let sw_mw : ℚ × ℚ :=
    match question.choices with
    | Choices.objs (c :: cs) =>
        let choiceObjects := c :: cs
        let selectedChoice := choiceObjects.find? (fun ch => ch.text = selectedAnswer)
        let selectedWeight :=
          match selectedChoice with
          | some ch => jsOr ch.weight 0
          | none => 0
        let maxWeight := (cs.map (fun ch => ch.weight)).foldl max c.weight
        (selectedWeight, maxWeight)
    | _ => (1, 1)
  let questionWeight := jsOr question.weight 1
  if sw_mw.2 = 0 then none
  else some (toFixed2 (sw_mw.1 / sw_mw.2 * questionWeight))

/-- The claim-side selected weight: the weight of the (first) choice whose
text equals the chosen text, `0` if no choice has that text. -/
def specSelectedWeight (cs : List QuestionChoice) (a : String) : ℚ :=
  match cs.find? (fun ch => ch.text = a) with
  | some ch => ch.weight
  | none => 0

/-- The claim-side maximum weight over a nonempty choice list. -/
def specMaxWeight (c : QuestionChoice) (cs : List QuestionChoice) : ℚ :=
  (cs.map (fun ch => ch.weight)).foldl max c.weight

/-- The example question of the spec: weight 10, choices `[("A",1),("B",3)]`. -/
def exampleQuestion : Question :=
  { id := "q-ex", text := "Q", choices := Choices.objs [⟨"A", 1⟩, ⟨"B", 3⟩],
    section_ := "s", weight := 10 }

/-! ## Grouping answers by team

All three aggregation paths build a JavaScript object keyed by
`answer.team_id` with the pattern

```
if (!teamScores[k]) { teamScores[k] = init; }
teamScores[k] = upd(teamScores[k], answer);
```

and then read the entries back in insertion order (`Object.entries`).  An
insertion-ordered string-keyed object is embedded as an association list:
updating an existing key rewrites its entry in place, a new key is appended
at the end.  The three paths differ only in the per-team accumulator, so the
object update is factored through `updateOrAppend`/`groupByTeam`,
instantiated separately for each source function. -/

/-- Update the entry of key `k` in place, or append `(k, init)` at the end
(the behaviour of assigning to a string key of a JavaScript object). -/
def updateOrAppend (k : String) (f : β → β) (init : β) : List (String × β) → List (String × β)
  | [] => [(k, init)]
  | e :: rest =>
      if e.1 = k then (e.1, f e.2) :: rest
      else e :: updateOrAppend k f init rest

/-- Fold a list of answers into an insertion-ordered object keyed by
`team_id`, starting each key at `empty` before applying `upd`. -/
def groupByTeam (upd : β → Answer → β) (empty : β) (answersData : List Answer) : List (String × β) :=
  answersData.foldl (fun acc a => updateOrAppend a.team_id (fun b => upd b a) (upd empty a) acc) []

/-- The keys of a JavaScript object in insertion order: the teams in order
of first appearance. -/
def firstSeenTeams (l : List String) : List String :=
  l.foldl (fun acc t => if t ∈ acc then acc else acc ++ [t]) []

/-! ## The stable descending sort

`Array.prototype.sort` with comparator `(a, b) => key(b) - key(a)` is a
stable sort into descending key order.  It is embedded as a stable insertion
sort: an element is inserted in front of the first element whose key is not
larger, so elements with equal keys keep their original relative order. -/

/-- Insert `x` in front of the first element whose key is ≤ `key x`. -/
def insertDesc (key : α → ℚ) (x : α) : List α → List α
  | [] => [x]
  | y :: ys => if key y ≤ key x then x :: y :: ys else y :: insertDesc key x ys

/-- Stable sort into descending `key` order. -/
def sortDesc (key : α → ℚ) (l : List α) : List α :=
  l.foldr (insertDesc key) []

/-- `LeaderboardEntry` from `src/src/App.tsx`. -/
structure LeaderboardEntry where
  teamName : String
  totalPoints : ℚ
deriving DecidableEq

/-- `calculateLeaderboardFromAnswers` from `src/src/pages/HostPage.tsx`
(the pure computation on the fetched answer rows):

```
answersData.forEach(answer => {
  const teamName = answer.team_id;
  if (!teamScores[teamName]) { teamScores[teamName] = 0; }
  teamScores[teamName] += (answer.points || 1);
});
const leaderboardData = Object.entries(teamScores)
  .map(([teamName, totalPoints]) => ({ teamName, totalPoints }))
  .sort((a, b) => b.totalPoints - a.totalPoints);
``` -/
def calculateLeaderboardFromAnswers (answersData : List Answer) : List LeaderboardEntry :=
  let teamScores := groupByTeam (fun b a => b + pointsOrOne a.points) 0 answersData
  sortDesc (fun e => e.totalPoints)
    (teamScores.map (fun e => { teamName := e.1, totalPoints := e.2 }))

/-- The total points recorded for team `t` on a leaderboard (lookup by
team name). -/
def teamTotal (lb : List LeaderboardEntry) (t : String) : Option ℚ :=
  (lb.find? (fun e => e.teamName = t)).map (fun e => e.totalPoints)

/-! ## End-of-session finalization (`handleEndSession` / `upsertSessionResult`) -/

/-- The per-team accumulator of `handleEndSession` in
`src/src/pages/HostPage.tsx`: `{ answers: Answer[], totalPoints: number }`. -/
structure TeamScoreData where
  answers : List Answer
  totalPoints : ℚ
deriving DecidableEq

/-- The grouping loop of `handleEndSession`:

```
answersData.forEach(answer => {
  if (!teamScores[answer.team_id]) {
    teamScores[answer.team_id] = { answers: [], totalPoints: 0 };
  }
  teamScores[answer.team_id].answers.push(answer);
  teamScores[answer.team_id].totalPoints += (answer.points || 1);
});
``` -/
def endTeamScores (answersData : List Answer) : List (String × TeamScoreData) :=
  groupByTeam
    (fun b a => { answers := b.answers ++ [a], totalPoints := b.totalPoints + pointsOrOne a.points })
    { answers := [], totalPoints := 0 } answersData

/-- One element of the `details.answers` payload saved by `handleEndSession`
(`points: a.points || 1`). -/
structure AnswerDetail where
  questionId : String
  answer : String
  points : ℚ
  judgeId : String
  timestamp : Option String
deriving DecidableEq

/-- A row of the `session_results` table (`SessionResult` in
`src/src/App.tsx`, sans the generated primary key). -/
structure SessionResultRow where
  session_id : String
  team_id : String
  total_points : ℚ
  details : List AnswerDetail
deriving DecidableEq

/-- Two rows collide exactly on the upsert conflict key `(session_id, team_id)`. -/
def sameKey (x r : SessionResultRow) : Prop :=
  x.session_id = r.session_id ∧ x.team_id = r.team_id

instance : DecidablePred (fun p : SessionResultRow × SessionResultRow => sameKey p.1 p.2) :=
  fun _ => by unfold sameKey; infer_instance

instance (x r : SessionResultRow) : Decidable (sameKey x r) := by
  unfold sameKey; infer_instance

/-- `upsertSessionResult` from `src/src/App.tsx`: an upsert on the
`session_results` table with `onConflict: 'session_id,team_id'` — replace
every row with the same conflict key, or insert the row at the end. -/
def upsertSessionResult (tbl : List SessionResultRow) (r : SessionResultRow) : List SessionResultRow :=
  if tbl.any (fun x => decide (sameKey x r)) then
    tbl.map (fun x => if sameKey x r then r else x)
  else tbl ++ [r]

/-- The rows `handleEndSession` saves for a session: one per grouped team. -/
def sessionResultRows (answersData : List Answer) (sessionId : String) : List SessionResultRow :=
  (endTeamScores answersData).map (fun e =>
    { session_id := sessionId, team_id := e.1, total_points := e.2.totalPoints,
      details := e.2.answers.map (fun a =>
        { questionId := a.question_id, answer := a.answer,
          points := pointsOrOne a.points, judgeId := a.judge_id,
          timestamp := a.created_at }) })

/-- The persistence effect of `handleEndSession` on the `session_results`
table: upsert the computed row of every team. -/
def endSessionSave (answersData : List Answer) (sessionId : String) (tbl : List SessionResultRow) : List SessionResultRow :=
  (sessionResultRows answersData sessionId).foldl upsertSessionResult tbl

/-! ## Results page (`src/unnamed/part_004`) -/

/-- `TeamResult` from `src/unnamed/part_004`. -/
structure TeamResult where
  teamName : String
  score : ℚ
  answers : List Answer
deriving DecidableEq

/-- The per-team accumulator of `calculateTeamResults`. -/
structure ResultData where
  score : ℚ
  answers : List Answer
deriving DecidableEq

/-- `calculateTeamResults` from `src/unnamed/part_004`:

```
answers.forEach(answer => {
  if (!teamScores[answer.team_id]) {
    teamScores[answer.team_id] = { score: 0, answers: [] };
  }
  const points = answer.points || 1;
  teamScores[answer.team_id].score += points;
  teamScores[answer.team_id].answers.push(answer);
});
return Object.entries(teamScores)
  .map(([teamName, data]) => ({ teamName, ...data }))
  .sort((a, b) => b.score - a.score);
``` -/
def calculateTeamResults (answers : List Answer) : List TeamResult :=
  let teamScores := groupByTeam
    (fun (b : ResultData) a => { score := b.score + pointsOrOne a.points, answers := b.answers ++ [a] })
    { score := 0, answers := [] } answers
  sortDesc (fun e => e.score)
    (teamScores.map (fun e => { teamName := e.1, score := e.2.score, answers := e.2.answers }))

/-! ## Judge view (`src/src/pages/JudgePage.tsx`) -/

/-- The two-state judge cycle (`useState<'judging' | 'waiting'>`). -/
inductive JudgeState where
  | judging
  | waiting
deriving DecidableEq

/-- The judge component state read by `handleSubmitFinal`:
`selectedAnswers` is the `{ [questionId]: answer }` object, kept in
insertion order. -/
structure JudgeView where
  judgeState : JudgeState
  questions : List Question
  selectedAnswers : List (String × String)
deriving DecidableEq

/-- `handleSubmitFinal` from `src/src/pages/JudgePage.tsx`:

```
if (Object.keys(selectedAnswers).length === 0) {
  alert('يرجى الإجابة على سؤال واحد على الأقل');
  return;
}
setJudgeState('waiting');
```

With no recorded answer the submit is rejected (an alert, no state change);
otherwise the view moves to `waiting`. -/
def handleSubmitFinal (v : JudgeView) : JudgeView :=
  if v.selectedAnswers.length = 0 then v
  else { v with judgeState := JudgeState.waiting }

/-! ## Host team navigation (`src/src/pages/HostPage.tsx`) -/

/-- The host component state read by the team-navigation handlers. -/
structure HostTeamState where
  selectedTeams : List String
  currentTeamIndex : Nat
  currentTeam : String
deriving DecidableEq

/-- `handleNextTeam` from `src/src/pages/HostPage.tsx`:

```
if (selectedTeams.length === 0) return;
const newIndex = currentTeamIndex < selectedTeams.length - 1 ? currentTeamIndex + 1 : 0;
setCurrentTeamIndex(newIndex);
setCurrentTeam(selectedTeams[newIndex]);
``` -/
def handleNextTeam (s : HostTeamState) : HostTeamState :=
  if s.selectedTeams.length = 0 then s
  else
    let newIndex := if s.currentTeamIndex < s.selectedTeams.length - 1 then s.currentTeamIndex + 1 else 0
    { s with currentTeamIndex := newIndex, currentTeam := s.selectedTeams.getD newIndex "" }

/-- `handlePreviousTeam` from `src/src/pages/HostPage.tsx`:

```
if (selectedTeams.length === 0) return;
const newIndex = currentTeamIndex > 0 ? currentTeamIndex - 1 : selectedTeams.length - 1;
setCurrentTeamIndex(newIndex);
setCurrentTeam(selectedTeams[newIndex]);
``` -/
def handlePreviousTeam (s : HostTeamState) : HostTeamState :=
  if s.selectedTeams.length = 0 then s
  else
    let newIndex := if 0 < s.currentTeamIndex then s.currentTeamIndex - 1 else s.selectedTeams.length - 1
    { s with currentTeamIndex := newIndex, currentTeam := s.selectedTeams.getD newIndex "" }

/-! ## Broadcasting a question set (`handleSendQuestions`) -/

/-- A row of the `sessions` table, restricted to the fields
`handleSendQuestions` touches. -/
structure SessionRow where
  session_id : String
  current_questions : List Question
  current_team_id : String
deriving DecidableEq

/-- The realtime payload sent on the `new-questions` broadcast. -/
structure BroadcastMsg where
  questions : List Question
  currentTeam : String
  teamId : String
deriving DecidableEq

/-- The remote state `handleSendQuestions` can affect: the `sessions` table
and the stream of published broadcast events. -/
structure RemoteState where
  sessions : List SessionRow
  broadcasts : List BroadcastMsg
deriving DecidableEq

/-- The host component state read by `handleSendQuestions`.  `sessionId` is
the sentinel `'لم تبدأ'` ("not started") when no session is active and
`currentTeam` is the sentinel `'لا يوجد'` ("none") when no team is active. -/
structure HostSendState where
  selectedQuestions : List String
  questions : List Question
  sessionId : String
  currentTeam : String
deriving DecidableEq

/-- Result of a send attempt: a client-side validation rejection (with the
alert message) or a completed send. -/
inductive SendOutcome where
  | rejected (msg : String)
  | sent
deriving DecidableEq

/-- Whether the outcome is a client-side validation rejection. -/
def SendOutcome.isRejected : SendOutcome → Bool
  | SendOutcome.rejected _ => true
  | SendOutcome.sent => false

/-- `handleSendQuestions` from `src/src/pages/HostPage.tsx`: three guards
(`selectedQuestions.length === 0`, `sessionId === 'لم تبدأ'`,
`currentTeam === 'لا يوجد'`) each alert and return before any remote call;
otherwise the session row is updated with the selected questions and the
current team, and the same payload is broadcast to the judges. -/
def handleSendQuestions (h : HostSendState) (r : RemoteState) : RemoteState × SendOutcome :=
  if h.selectedQuestions.length = 0 then
    (r, SendOutcome.rejected "يرجى اختيار سؤال واحد على الأقل")
  else if h.sessionId = "لم تبدأ" then
    (r, SendOutcome.rejected "يرجى إنشاء جلسة أولاً")
  else if h.currentTeam = "لا يوجد" then
    (r, SendOutcome.rejected "يرجى اختيار فريق أولاً")
  else
    let questionsToSend := h.questions.filter (fun q => h.selectedQuestions.contains q.id)
    let sessions := r.sessions.map (fun s =>
      if s.session_id = h.sessionId then
        { s with current_questions := questionsToSend, current_team_id := h.currentTeam }
      else s)
    ({ sessions := sessions,
       broadcasts := r.broadcasts ++ [{ questions := questionsToSend,
                                        currentTeam := h.currentTeam, teamId := h.currentTeam }] },
     SendOutcome.sent)

/-! ## Lemmas: the grouped object -/

/-- Lookup of a key in an insertion-ordered object. -/
def lookupVal (l : List (String × β)) (t : String) : Option β :=
  (l.find? (fun e => e.1 = t)).map (fun e => e.2)

theorem updateOrAppend_keys (k : String) (f : β → β) (init : β) (l : List (String × β)) :
    (updateOrAppend k f init l).map Prod.fst =
      if k ∈ l.map Prod.fst then l.map Prod.fst else l.map Prod.fst ++ [k] := by
  induction l with
  | nil => simp [updateOrAppend]
  | cons e rest ih =>
      simp only [updateOrAppend]
      by_cases h : e.1 = k
      · rw [if_pos h]
        simp [h]
      · rw [if_neg h]
        simp only [List.map_cons, ih]
        by_cases hm : k ∈ rest.map Prod.fst
        · rw [if_pos hm, if_pos (List.mem_cons_of_mem _ hm)]
        · rw [if_neg hm, if_neg ?_, List.cons_append]
          intro hc
          rcases List.mem_cons.mp hc with hc | hc
          · exact h hc.symm
          · exact hm hc

theorem lookupVal_nil (t : String) : lookupVal ([] : List (String × β)) t = none := rfl

theorem lookupVal_cons (e : String × β) (l : List (String × β)) (t : String) :
    lookupVal (e :: l) t = if e.1 = t then some e.2 else lookupVal l t := by
  simp only [lookupVal, List.find?_cons]
  by_cases h : e.1 = t <;> simp [h]

theorem lookupVal_updateOrAppend (k : String) (f : β → β) (init : β) (l : List (String × β)) (t : String) :
    lookupVal (updateOrAppend k f init l) t =
      if t = k then
        some (match lookupVal l k with
              | some b => f b
              | none => init)
      else lookupVal l t := by
  induction l with
  | nil =>
      by_cases h : t = k
      · simp [updateOrAppend, lookupVal_cons, lookupVal, h]
      · simp only [updateOrAppend, lookupVal_cons, lookupVal_nil, if_neg h]
        rw [if_neg (fun hc : k = t => h hc.symm)]
  | cons e rest ih =>
      simp only [updateOrAppend]
      by_cases h : e.1 = k
      · rw [if_pos h]
        by_cases ht : t = k
        · subst ht
          have he : e.1 = t := h
          simp [lookupVal_cons, he]
        · have he : ¬ e.1 = t := fun hc => ht (hc.symm.trans h)
          simp [lookupVal_cons, he, ht]
      · rw [if_neg h]
        by_cases ht : t = k
        · subst ht
          simp [lookupVal_cons, h, ih]
        · by_cases he : e.1 = t
          · simp [lookupVal_cons, he, ht]
          · simp [lookupVal_cons, he, ht, ih]

/-- The recorded contribution of team `t` to an answer list: the
`(points || 1)` values of its answers, summed. -/
def sumPointsFor (answersData : List Answer) (t : String) : ℚ :=
  ((answersData.filter (fun a => a.team_id = t)).map (fun a => pointsOrOne a.points)).sum

theorem match_getD (o : Option β) (upd : β → Answer → β) (empty : β) (a : Answer) :
    (match o with
     | some b => upd b a
     | none => upd empty a) = upd (o.getD empty) a := by
  cases o <;> rfl

theorem lookupVal_groupByTeam_go (upd : β → Answer → β) (empty : β) (l : List Answer) :
    ∀ (acc : List (String × β)) (t : String),
      lookupVal (l.foldl (fun acc a => updateOrAppend a.team_id (fun b => upd b a) (upd empty a) acc) acc) t =
        if t ∈ l.map (fun a => a.team_id) ∨ (lookupVal acc t).isSome = true then
          some ((l.filter (fun a => a.team_id = t)).foldl upd ((lookupVal acc t).getD empty))
        else none := by
  induction l with
  | nil =>
      intro acc t
      cases h : lookupVal acc t <;> simp [h]
  | cons a rest ih =>
      intro acc t
      rw [List.foldl_cons, ih]
      by_cases ht : t = a.team_id
      · subst ht
        rw [lookupVal_updateOrAppend]
        rw [if_pos rfl, match_getD]
        simp [List.filter_cons]
      · rw [lookupVal_updateOrAppend, if_neg ht]
        have hneg : ¬ (a.team_id = t) := fun hc => ht hc.symm
        have hfil : List.filter (fun x => decide (x.team_id = t)) (a :: rest) =
            List.filter (fun x => decide (x.team_id = t)) rest := by
          simp [List.filter_cons, hneg]
        have hmem : (t ∈ List.map (fun x => x.team_id) rest ∨ (lookupVal acc t).isSome = true) ↔
            (t ∈ List.map (fun x => x.team_id) (a :: rest) ∨ (lookupVal acc t).isSome = true) := by
          simp only [List.map_cons, List.mem_cons]
          constructor
          · rintro (h | h)
            · exact Or.inl (Or.inr h)
            · exact Or.inr h
          · rintro (h | h)
            · rcases h with h | h
              · exact absurd h ht
              · exact Or.inl h
            · exact Or.inr h
        rw [show List.filter (fun x => decide (x.team_id = t)) (a :: rest) =
            List.filter (fun x => decide (x.team_id = t)) rest from hfil] at *
        exact if_congr hmem rfl rfl

theorem lookupVal_groupByTeam (upd : β → Answer → β) (empty : β) (l : List Answer) (t : String) :
    lookupVal (groupByTeam upd empty l) t =
      if t ∈ l.map (fun a => a.team_id) then
        some ((l.filter (fun a => a.team_id = t)).foldl upd empty)
      else none := by
  rw [groupByTeam, lookupVal_groupByTeam_go]
  simp [lookupVal]

theorem groupByTeam_keys_go (upd : β → Answer → β) (empty : β) (l : List Answer) :
    ∀ (acc : List (String × β)),
      ((l.foldl (fun acc a => updateOrAppend a.team_id (fun b => upd b a) (upd empty a) acc) acc).map Prod.fst) =
        (l.map (fun a => a.team_id)).foldl (fun acc2 t => if t ∈ acc2 then acc2 else acc2 ++ [t]) (acc.map Prod.fst) := by
  induction l with
  | nil => intro acc; rfl
  | cons a rest ih =>
      intro acc
      rw [List.foldl_cons, List.map_cons, List.foldl_cons, ih, updateOrAppend_keys]

theorem groupByTeam_keys (upd : β → Answer → β) (empty : β) (l : List Answer) :
    (groupByTeam upd empty l).map Prod.fst = firstSeenTeams (l.map (fun a => a.team_id)) := by
  rw [groupByTeam, groupByTeam_keys_go]
  rfl

theorem firstSeenTeams_go_nodup (l : List String) :
    ∀ (acc : List String), acc.Nodup →
      ((l.foldl (fun acc t => if t ∈ acc then acc else acc ++ [t]) acc)).Nodup := by
  induction l with
  | nil => intro acc h; exact h
  | cons t rest ih =>
      intro acc h
      rw [List.foldl_cons]
      by_cases hm : t ∈ acc
      · rw [if_pos hm]
        exact ih acc h
      · rw [if_neg hm]
        refine ih _ ?_
        simp [List.nodup_append, h, hm]

theorem firstSeenTeams_nodup (l : List String) : (firstSeenTeams l).Nodup :=
  firstSeenTeams_go_nodup l [] List.nodup_nil

theorem firstSeenTeams_go_mem (l : List String) :
    ∀ (acc : List String) (x : String),
      x ∈ l.foldl (fun acc t => if t ∈ acc then acc else acc ++ [t]) acc ↔ x ∈ acc ∨ x ∈ l := by
  induction l with
  | nil => intro acc x; simp
  | cons t rest ih =>
      intro acc x
      rw [List.foldl_cons]
      by_cases hm : t ∈ acc
      · rw [if_pos hm, ih]
        simp only [List.mem_cons]
        constructor
        · rintro (h | h)
          · exact Or.inl h
          · exact Or.inr (Or.inr h)
        · rintro (h | h | h)
          · exact Or.inl h
          · exact Or.inl (h ▸ hm)
          · exact Or.inr h
      · rw [if_neg hm, ih]
        simp only [List.mem_append, List.mem_singleton, List.mem_cons]
        tauto

theorem firstSeenTeams_mem (l : List String) (x : String) :
    x ∈ firstSeenTeams l ↔ x ∈ l := by
  rw [firstSeenTeams, firstSeenTeams_go_mem]
  simp

/-! ## Lemmas: the stable descending sort -/

theorem insertDesc_perm (key : α → ℚ) (x : α) (l : List α) :
    (insertDesc key x l).Perm (x :: l) := by
  induction l with
  | nil => exact List.Perm.refl _
  | cons y ys ih =>
      rw [insertDesc]
      by_cases h : key y ≤ key x
      · rw [if_pos h]
      · rw [if_neg h]
        exact (ih.cons y).trans (List.Perm.swap x y ys)

theorem sortDesc_perm (key : α → ℚ) (l : List α) : (sortDesc key l).Perm l := by
  induction l with
  | nil => exact List.Perm.refl _
  | cons x xs ih =>
      rw [sortDesc, List.foldr_cons]
      exact (insertDesc_perm key x _).trans (ih.cons x)

theorem insertDesc_mem (key : α → ℚ) (x z : α) (l : List α) :
    z ∈ insertDesc key x l ↔ z = x ∨ z ∈ l := by
  rw [(insertDesc_perm key x l).mem_iff, List.mem_cons]

theorem insertDesc_pairwise (key : α → ℚ) (x : α) (l : List α)
    (h : l.Pairwise (fun a b => key b ≤ key a)) :
    (insertDesc key x l).Pairwise (fun a b => key b ≤ key a) := by
  induction l with
  | nil => simp [insertDesc]
  | cons y ys ih =>
      rw [insertDesc]
      rcases List.pairwise_cons.mp h with ⟨hy, hys⟩
      by_cases hk : key y ≤ key x
      · rw [if_pos hk]
        refine List.pairwise_cons.mpr ⟨?_, h⟩
        intro z hz
        rcases List.mem_cons.mp hz with hz | hz
        · exact hz ▸ hk
        · exact le_trans (hy z hz) hk
      · rw [if_neg hk]
        refine List.pairwise_cons.mpr ⟨?_, ih hys⟩
        intro z hz
        rcases (insertDesc_mem key x z ys).mp hz with hz | hz
        · exact hz ▸ le_of_not_le hk
        · exact hy z hz

theorem sortDesc_pairwise (key : α → ℚ) (l : List α) :
    (sortDesc key l).Pairwise (fun a b => key b ≤ key a) := by
  induction l with
  | nil => simp [sortDesc]
  | cons x xs ih =>
      rw [sortDesc, List.foldr_cons]
      exact insertDesc_pairwise key x _ ih

theorem insertDesc_filter_key (key : α → ℚ) (x : α) (l : List α) (q : ℚ) :
    (insertDesc key x l).filter (fun y => key y = q) =
      (x :: l).filter (fun y => key y = q) := by
  induction l with
  | nil => rfl
  | cons y ys ih =>
      rw [insertDesc]
      by_cases hk : key y ≤ key x
      · rw [if_pos hk]
      · rw [if_neg hk]
        have hlt : key x < key y := lt_of_not_le hk
        by_cases hyq : key y = q
        · have hxq : ¬ key x = q := by
            intro hc
            rw [hc, hyq] at hlt
            exact absurd hlt (lt_irrefl q)
          simp [List.filter_cons, hyq, hxq, ih]
        · simp [List.filter_cons, hyq, ih]

theorem sortDesc_filter_key (key : α → ℚ) (l : List α) (q : ℚ) :
    (sortDesc key l).filter (fun y => key y = q) = l.filter (fun y => key y = q) := by
  induction l with
  | nil => rfl
  | cons x xs ih =>
      rw [sortDesc, List.foldr_cons,
        show List.foldr (insertDesc key) [] xs = sortDesc key xs from rfl,
        insertDesc_filter_key]
      by_cases hx : key x = q
      · simp [List.filter_cons, hx, ih]
      · simp [List.filter_cons, hx, ih]

/-! ## Lemmas: lookup by a unique name survives sorting -/

theorem find?_name_unique (name : α → String) (t : String) (l : List α)
    (hnd : (l.map name).Nodup) (x : α) (hx : x ∈ l) (ht : name x = t) :
    l.find? (fun y => name y = t) = some x := by
  induction l with
  | nil => cases hx
  | cons y ys ih =>
      rw [List.map_cons, List.nodup_cons] at hnd
      rw [List.find?_cons]
      rcases List.mem_cons.mp hx with hx1 | hx1
      · subst hx1
        simp [ht]
      · by_cases hy : name y = t
        · exfalso
          have hmem : name x ∈ ys.map name := List.mem_map_of_mem name hx1
          rw [ht, ← hy] at hmem
          exact hnd.1 hmem
        · rw [show (decide (name y = t)) = false from decide_eq_false hy]
          exact ih hnd.2 hx1

theorem find?_name_of_perm (name : α → String) (t : String) (l l2 : List α)
    (hp : l.Perm l2) (hnd : (l.map name).Nodup) :
    l.find? (fun y => name y = t) = l2.find? (fun y => name y = t) := by
  cases hfl : l.find? (fun y => name y = t) with
  | none =>
      have hall := List.find?_eq_none.mp hfl
      symm
      apply List.find?_eq_none.mpr
      intro x hxl2
      exact hall x (hp.mem_iff.mpr hxl2)
  | some x =>
      have hmem : x ∈ l := List.mem_of_find?_eq_some hfl
      have hpx := @List.find?_some _ (fun y => decide (name y = t)) x l hfl
      have hx : name x = t := of_decide_eq_true (show decide (name x = t) = true from hpx)
      symm
      exact find?_name_unique name t l2 ((hp.map name).nodup hnd) x (hp.mem_iff.mp hmem) hx

/-! ## The leaderboard lookup characterization -/

theorem foldl_add_pointsOrOne (l : List Answer) (b : ℚ) :
    l.foldl (fun b a => b + pointsOrOne a.points) b = b + (l.map (fun a => pointsOrOne a.points)).sum := by
  induction l generalizing b with
  | nil => simp
  | cons a rest ih => simp [List.foldl_cons, ih, add_assoc]

theorem teamTotal_leaderboard (l : List Answer) (t : String) :
    teamTotal (calculateLeaderboardFromAnswers l) t =
      if t ∈ l.map (fun a => a.team_id) then some (sumPointsFor l t) else none := by
  rw [teamTotal, calculateLeaderboardFromAnswers]
  set G := groupByTeam (fun b a => b + pointsOrOne a.points) 0 l with hG
  set entries := G.map (fun e : String × ℚ => ({ teamName := e.1, totalPoints := e.2 } : LeaderboardEntry)) with hE
  have hlook : lookupVal G t =
      if t ∈ l.map (fun a => a.team_id) then some (sumPointsFor l t) else none := by
    rw [hG, lookupVal_groupByTeam]
    by_cases hm : t ∈ l.map (fun a => a.team_id)
    · rw [if_pos hm, if_pos hm, foldl_add_pointsOrOne, zero_add]
      rfl
    · rw [if_neg hm, if_neg hm]
  have hkeys : entries.map (fun e => e.teamName) = G.map Prod.fst := by
    rw [hE, List.map_map]
    rfl
  have hnd : (entries.map (fun e => e.teamName)).Nodup := by
    rw [hkeys, hG, groupByTeam_keys]
    exact firstSeenTeams_nodup _
  have hnd2 : ((sortDesc (fun e : LeaderboardEntry => e.totalPoints) entries).map
      (fun e => e.teamName)).Nodup :=
    (((sortDesc_perm (fun e : LeaderboardEntry => e.totalPoints) entries).map
      (fun e => e.teamName)).symm).nodup hnd
  have hfp := find?_name_of_perm (fun e : LeaderboardEntry => e.teamName) t
      (sortDesc (fun e : LeaderboardEntry => e.totalPoints) entries) entries
      (sortDesc_perm _ _) hnd2
  rw [hfp, hE, List.find?_map, Option.map_map]
  exact hlook

/-! ## Per-entry values of the grouped object -/

theorem groupByTeam_entry_val (upd : β → Answer → β) (empty : β) (l : List Answer)
    (e : String × β) (he : e ∈ groupByTeam upd empty l) :
    e.2 = (l.filter (fun a => a.team_id = e.1)).foldl upd empty := by
  have hnd : ((groupByTeam upd empty l).map Prod.fst).Nodup := by
    rw [groupByTeam_keys]
    exact firstSeenTeams_nodup _
  have hfind := find?_name_unique Prod.fst e.1 (groupByTeam upd empty l) hnd e he rfl
  have hl : lookupVal (groupByTeam upd empty l) e.1 = some e.2 := by
    rw [lookupVal]
    rw [show List.find? (fun x => decide (x.1 = e.1)) (groupByTeam upd empty l) = some e from hfind]
    rfl
  have hmem : e.1 ∈ l.map (fun a => a.team_id) := by
    have hin : e.1 ∈ (groupByTeam upd empty l).map Prod.fst := List.mem_map_of_mem Prod.fst he
    rw [groupByTeam_keys] at hin
    exact (firstSeenTeams_mem _ _).mp hin
  rw [lookupVal_groupByTeam, if_pos hmem] at hl
  exact (Option.some.inj hl).symm

theorem filter_snd_map_fst (v : String → ℚ) (q : ℚ) (G : List (String × ℚ))
    (hv : ∀ e ∈ G, e.2 = v e.1) :
    (G.filter (fun e => e.2 = q)).map Prod.fst = (G.map Prod.fst).filter (fun t => v t = q) := by
  induction G with
  | nil => rfl
  | cons e rest ih =>
      have he : e.2 = v e.1 := hv e (List.mem_cons_self e rest)
      have hrest : ∀ x ∈ rest, x.2 = v x.1 := fun x hx => hv x (List.mem_cons_of_mem e hx)
      by_cases hq : e.2 = q
      · have hq2 : v e.1 = q := he ▸ hq
        simp [List.filter_cons, hq, hq2, ih hrest]
      · have hq2 : ¬ v e.1 = q := fun hc => hq (he.symm ▸ hc ▸ rfl)
        simp only [List.filter_cons, List.map_cons]
        rw [show (decide (e.2 = q)) = false from decide_eq_false hq,
          show (decide (v e.1 = q)) = false from decide_eq_false hq2]
        simpa using ih hrest

/-! ## Characterizations of the other two aggregation paths -/

theorem foldl_endScores (l : List Answer) (p : TeamScoreData) :
    l.foldl
        (fun b a =>
          ({ answers := b.answers ++ [a],
             totalPoints := b.totalPoints + pointsOrOne a.points } : TeamScoreData))
        p =
      { answers := p.answers ++ l,
        totalPoints := p.totalPoints + (l.map (fun a => pointsOrOne a.points)).sum } := by
  induction l generalizing p with
  | nil => simp
  | cons a rest ih => simp [List.foldl_cons, ih, add_assoc]

theorem lookupVal_endTeamScores (l : List Answer) (t : String) :
    lookupVal (endTeamScores l) t =
      if t ∈ l.map (fun a => a.team_id) then
        some
          ({ answers := l.filter (fun a => a.team_id = t),
             totalPoints := sumPointsFor l t } : TeamScoreData)
      else none := by
  rw [endTeamScores, lookupVal_groupByTeam]
  by_cases hm : t ∈ l.map (fun a => a.team_id)
  · rw [if_pos hm, if_pos hm, foldl_endScores]
    simp [sumPointsFor]
  · rw [if_neg hm, if_neg hm]

theorem foldl_resultData (l : List Answer) (p : ResultData) :
    l.foldl
        (fun b a =>
          ({ score := b.score + pointsOrOne a.points,
             answers := b.answers ++ [a] } : ResultData))
        p =
      { score := p.score + (l.map (fun a => pointsOrOne a.points)).sum,
        answers := p.answers ++ l } := by
  induction l generalizing p with
  | nil => simp
  | cons a rest ih => simp [List.foldl_cons, ih, add_assoc]

/-- Lookup of a team's score on the results page output. -/
def resultScoreOf (rs : List TeamResult) (t : String) : Option ℚ :=
  (rs.find? (fun e => e.teamName = t)).map (fun e => e.score)

theorem resultScoreOf_calculateTeamResults (l : List Answer) (t : String) :
    resultScoreOf (calculateTeamResults l) t =
      if t ∈ l.map (fun a => a.team_id) then some (sumPointsFor l t) else none := by
  rw [resultScoreOf, calculateTeamResults]
  set G := groupByTeam
    (fun (b : ResultData) a => { score := b.score + pointsOrOne a.points, answers := b.answers ++ [a] })
    { score := 0, answers := [] } l with hG
  set entries := G.map (fun e : String × ResultData =>
    ({ teamName := e.1, score := e.2.score, answers := e.2.answers } : TeamResult)) with hE
  have hlook : lookupVal G t =
      if t ∈ l.map (fun a => a.team_id) then
        some
          ({ score := sumPointsFor l t,
             answers := l.filter (fun a => a.team_id = t) } : ResultData)
      else none := by
    rw [hG, lookupVal_groupByTeam]
    by_cases hm : t ∈ l.map (fun a => a.team_id)
    · rw [if_pos hm, if_pos hm, foldl_resultData]
      simp [sumPointsFor]
    · rw [if_neg hm, if_neg hm]
  have hkeys : entries.map (fun e => e.teamName) = G.map Prod.fst := by
    rw [hE, List.map_map]
    rfl
  have hnd : (entries.map (fun e => e.teamName)).Nodup := by
    rw [hkeys, hG, groupByTeam_keys]
    exact firstSeenTeams_nodup _
  have hnd2 : ((sortDesc (fun e : TeamResult => e.score) entries).map
      (fun e => e.teamName)).Nodup :=
    (((sortDesc_perm (fun e : TeamResult => e.score) entries).map
      (fun e => e.teamName)).symm).nodup hnd
  have hfp := find?_name_of_perm (fun e : TeamResult => e.teamName) t
      (sortDesc (fun e : TeamResult => e.score) entries) entries
      (sortDesc_perm _ _) hnd2
  rw [hfp, hE, List.find?_map, Option.map_map]
  show Option.map (fun d : String × ResultData => d.2.score)
      (List.find? (fun e : String × ResultData => decide (e.1 = t)) G) =
    if t ∈ l.map (fun a => a.team_id) then some (sumPointsFor l t) else none
  rw [lookupVal] at hlook
  cases hf : List.find? (fun e : String × ResultData => decide (e.1 = t)) G with
  | none =>
      rw [hf] at hlook
      by_cases hm : t ∈ l.map (fun a => a.team_id)
      · rw [if_pos hm] at hlook
        exact absurd hlook (by simp)
      · rw [if_neg hm]
        rfl
  | some e =>
      rw [hf] at hlook
      by_cases hm : t ∈ l.map (fun a => a.team_id)
      · rw [if_pos hm] at hlook
        have he2 : e.2 =
            ({ score := sumPointsFor l t,
               answers := l.filter (fun a => a.team_id = t) } : ResultData) := by
          simpa using hlook
        rw [if_pos hm]
        simp [he2]
      · rw [if_neg hm] at hlook
        exact absurd hlook (by simp)

/-! ## Tie order on the leaderboard -/

/-- The claim-side tie bucket: the teams whose total is `q`, in order of
first appearance in the answer list. -/
def teamsWithTotal (l : List Answer) (q : ℚ) : List String :=
  (firstSeenTeams (l.map (fun a => a.team_id))).filter (fun t => sumPointsFor l t = q)

theorem leaderboard_tie_order (l : List Answer) (q : ℚ) :
    ((calculateLeaderboardFromAnswers l).filter (fun e => e.totalPoints = q)).map
        (fun e => e.teamName) =
      teamsWithTotal l q := by
  rw [calculateLeaderboardFromAnswers]
  set G := groupByTeam (fun b a => b + pointsOrOne a.points) 0 l with hG
  set entries := G.map (fun e : String × ℚ =>
    ({ teamName := e.1, totalPoints := e.2 } : LeaderboardEntry)) with hE
  have hv : ∀ e ∈ G, e.2 = sumPointsFor l e.1 := by
    intro e he
    rw [hG] at he
    have hval := groupByTeam_entry_val (fun b a => b + pointsOrOne a.points) 0 l e he
    rw [hval, foldl_add_pointsOrOne, zero_add]
    rfl
  have hsf := sortDesc_filter_key (fun e : LeaderboardEntry => e.totalPoints) entries q
  rw [hsf, hE, List.filter_map, List.map_map]
  show (G.filter (fun e : String × ℚ => decide (e.2 = q))).map Prod.fst = teamsWithTotal l q
  rw [filter_snd_map_fst (fun t => sumPointsFor l t) q G hv, hG, groupByTeam_keys]
  rfl

/-! ## Lemmas: idempotence of the end-of-session upserts -/

theorem map_eq_self_of (l : List γ) (f : γ → γ) (h : ∀ x ∈ l, f x = x) : l.map f = l := by
  induction l with
  | nil => rfl
  | cons x xs ih =>
      rw [List.map_cons, h x (List.mem_cons_self x xs),
        ih (fun y hy => h y (List.mem_cons_of_mem x hy))]

theorem upsert_rows_eq (tbl : List SessionResultRow) (r : SessionResultRow) :
    ∀ x ∈ upsertSessionResult tbl r, sameKey x r → x = r := by
  intro x hx hkey
  rw [upsertSessionResult] at hx
  by_cases hany : tbl.any (fun x => decide (sameKey x r)) = true
  · rw [if_pos hany] at hx
    rcases List.mem_map.mp hx with ⟨y, hy, hxy⟩
    by_cases hky : sameKey y r
    · rw [if_pos hky] at hxy
      exact hxy.symm
    · rw [if_neg hky] at hxy
      rw [← hxy] at hkey
      exact absurd hkey hky
  · rw [if_neg hany] at hx
    rcases List.mem_append.mp hx with hx1 | hx1
    · exfalso
      apply hany
      exact List.any_eq_true.mpr ⟨x, hx1, decide_eq_true hkey⟩
    · exact List.mem_singleton.mp hx1

theorem upsert_key_present (tbl : List SessionResultRow) (r : SessionResultRow) :
    (upsertSessionResult tbl r).any (fun x => decide (sameKey x r)) = true := by
  rw [upsertSessionResult]
  by_cases hany : tbl.any (fun x => decide (sameKey x r)) = true
  · rw [if_pos hany]
    rcases List.any_eq_true.mp hany with ⟨y, hy, hpy⟩
    have hky : sameKey y r := of_decide_eq_true hpy
    apply List.any_eq_true.mpr
    refine ⟨r, ?_, decide_eq_true ⟨rfl, rfl⟩⟩
    apply List.mem_map.mpr
    exact ⟨y, hy, by rw [if_pos hky]⟩
  · rw [if_neg hany]
    apply List.any_eq_true.mpr
    exact ⟨r, List.mem_append.mpr (Or.inr (List.mem_singleton.mpr rfl)), decide_eq_true ⟨rfl, rfl⟩⟩

theorem upsert_preserves_eq (tbl : List SessionResultRow) (r r2 : SessionResultRow)
    (hk : ¬ sameKey r2 r) (h : ∀ x ∈ tbl, sameKey x r → x = r) :
    ∀ x ∈ upsertSessionResult tbl r2, sameKey x r → x = r := by
  intro x hx hkey
  rw [upsertSessionResult] at hx
  by_cases hany : tbl.any (fun x => decide (sameKey x r2)) = true
  · rw [if_pos hany] at hx
    rcases List.mem_map.mp hx with ⟨y, hy, hxy⟩
    by_cases hky : sameKey y r2
    · rw [if_pos hky] at hxy
      rw [← hxy] at hkey
      exact absurd hkey hk
    · rw [if_neg hky] at hxy
      rw [← hxy] at hkey ⊢
      exact h y hy hkey
  · rw [if_neg hany] at hx
    rcases List.mem_append.mp hx with hx1 | hx1
    · exact h x hx1 hkey
    · have hx2 := List.mem_singleton.mp hx1
      rw [hx2] at hkey
      exact absurd hkey hk

theorem upsert_preserves_present (tbl : List SessionResultRow) (r r2 : SessionResultRow)
    (hk : ¬ sameKey r2 r) (h : tbl.any (fun x => decide (sameKey x r)) = true) :
    (upsertSessionResult tbl r2).any (fun x => decide (sameKey x r)) = true := by
  rcases List.any_eq_true.mp h with ⟨y, hy, hpy⟩
  have hky : sameKey y r := of_decide_eq_true hpy
  rw [upsertSessionResult]
  by_cases hany : tbl.any (fun x => decide (sameKey x r2)) = true
  · rw [if_pos hany]
    apply List.any_eq_true.mpr
    by_cases hky2 : sameKey y r2
    · exfalso
      exact hk ⟨hky2.1.symm.trans hky.1, hky2.2.symm.trans hky.2⟩
    · exact ⟨y, List.mem_map.mpr ⟨y, hy, by rw [if_neg hky2]⟩, decide_eq_true hky⟩
  · rw [if_neg hany]
    exact List.any_eq_true.mpr ⟨y, List.mem_append.mpr (Or.inl hy), decide_eq_true hky⟩

theorem upsert_noop (tbl : List SessionResultRow) (r : SessionResultRow)
    (h1 : ∀ x ∈ tbl, sameKey x r → x = r)
    (h2 : tbl.any (fun x => decide (sameKey x r)) = true) :
    upsertSessionResult tbl r = tbl := by
  rw [upsertSessionResult, if_pos h2]
  apply map_eq_self_of
  intro x hx
  by_cases hkx : sameKey x r
  · rw [if_pos hkx]
    exact (h1 x hx hkx).symm
  · rw [if_neg hkx]

theorem foldl_preserves (R : List SessionResultRow) :
    ∀ (tbl : List SessionResultRow) (r : SessionResultRow),
      (∀ r2 ∈ R, ¬ sameKey r2 r) →
      (∀ x ∈ tbl, sameKey x r → x = r) →
      tbl.any (fun x => decide (sameKey x r)) = true →
      (∀ x ∈ R.foldl upsertSessionResult tbl, sameKey x r → x = r) ∧
        (R.foldl upsertSessionResult tbl).any (fun x => decide (sameKey x r)) = true := by
  induction R with
  | nil => intro tbl r _ h1 h2; exact ⟨h1, h2⟩
  | cons r2 rest ih =>
      intro tbl r hk h1 h2
      rw [List.foldl_cons]
      exact ih (upsertSessionResult tbl r2) r (fun y hy => hk y (List.mem_cons_of_mem _ hy))
        (upsert_preserves_eq tbl r r2 (hk r2 (List.mem_cons_self _ _)) h1)
        (upsert_preserves_present tbl r r2 (hk r2 (List.mem_cons_self _ _)) h2)

theorem foldl_upsert_good (R : List SessionResultRow) :
    ∀ (tbl : List SessionResultRow),
      R.Pairwise (fun a b => ¬ sameKey b a) →
      ∀ r ∈ R, (∀ x ∈ R.foldl upsertSessionResult tbl, sameKey x r → x = r) ∧
        (R.foldl upsertSessionResult tbl).any (fun x => decide (sameKey x r)) = true := by
  induction R with
  | nil => intro tbl _ r hr; cases hr
  | cons r0 rest ih =>
      intro tbl hnd r hr
      rw [List.foldl_cons]
      rcases List.pairwise_cons.mp hnd with ⟨hhead, htail⟩
      rcases List.mem_cons.mp hr with hr1 | hr1
      · subst hr1
        exact foldl_preserves rest (upsertSessionResult tbl r) r hhead
          (upsert_rows_eq tbl r) (upsert_key_present tbl r)
      · exact ih (upsertSessionResult tbl r0) htail r hr1

theorem foldl_upsert_noop (R : List SessionResultRow) :
    ∀ (tbl : List SessionResultRow),
      (∀ r ∈ R, (∀ x ∈ tbl, sameKey x r → x = r) ∧
        tbl.any (fun x => decide (sameKey x r)) = true) →
      R.foldl upsertSessionResult tbl = tbl := by
  induction R with
  | nil => intro tbl _; rfl
  | cons r0 rest ih =>
      intro tbl h
      rw [List.foldl_cons]
      have h0 := h r0 (List.mem_cons_self _ _)
      rw [upsert_noop tbl r0 h0.1 h0.2]
      exact ih tbl (fun r hr => h r (List.mem_cons_of_mem _ hr))

theorem foldl_upsert_idem (R : List SessionResultRow) (tbl : List SessionResultRow)
    (hnd : R.Pairwise (fun a b => ¬ sameKey b a)) :
    R.foldl upsertSessionResult (R.foldl upsertSessionResult tbl) = R.foldl upsertSessionResult tbl := by
  apply foldl_upsert_noop
  intro r hr
  exact foldl_upsert_good R tbl hnd r hr

theorem sessionResultRows_keys (l : List Answer) (sid : String) :
    (sessionResultRows l sid).map (fun r => r.team_id) =
      firstSeenTeams (l.map (fun a => a.team_id)) := by
  rw [sessionResultRows, List.map_map, ← groupByTeam_keys
    (fun (b : TeamScoreData) a =>
      ({ answers := b.answers ++ [a], totalPoints := b.totalPoints + pointsOrOne a.points } : TeamScoreData))
    { answers := [], totalPoints := 0 } l]
  rfl

theorem sessionResultRows_pairwise (l : List Answer) (sid : String) :
    (sessionResultRows l sid).Pairwise (fun a b => ¬ sameKey b a) := by
  have hnd : ((sessionResultRows l sid).map (fun r => r.team_id)).Nodup := by
    rw [sessionResultRows_keys]
    exact firstSeenTeams_nodup _
  have hnd2 : (sessionResultRows l sid).Pairwise (fun a b => a.team_id ≠ b.team_id) := by
    rw [List.Nodup, List.pairwise_map] at hnd
    exact hnd
  refine hnd2.imp ?_
  intro a b hne hk
  exact hne hk.2.symm

/-! ## Claim theorems -/

theorem jsOr_zero (w : ℚ) : jsOr w 0 = w := by
  rw [jsOr]
  by_cases h : w = 0
  · rw [if_pos h, h]
  · rw [if_neg h]

theorem selectedWeight_eq (cs : List QuestionChoice) (a : String) :
    (match cs.find? (fun ch => ch.text = a) with
     | some ch => jsOr ch.weight 0
     | none => 0) = specSelectedWeight cs a := by
  rw [specSelectedWeight]
  cases cs.find? (fun ch => ch.text = a) with
  | none => rfl
  | some ch => exact jsOr_zero ch.weight

theorem calculatePoints_objs (q : Question) (a : String) (c : QuestionChoice)
    (cs : List QuestionChoice) (hch : q.choices = Choices.objs (c :: cs)) :
    calculatePoints q a =
      if specMaxWeight c cs = 0 then none
      else some (toFixed2 (specSelectedWeight (c :: cs) a / specMaxWeight c cs * jsOr q.weight 1)) := by
  rw [calculatePoints, hch]
  simp only [selectedWeight_eq]
  rfl

/-- C1: for a structured question (with the spec-assumed positive question
weight and a nonzero maximum choice weight), the score is
`(selectedWeight / maxWeight) * questionWeight` rounded to two decimals,
where `selectedWeight` is the weight of the choice whose text matches (0 when
absent) and `maxWeight` the maximum choice weight; in particular on the
weight-10 question with choices `[("A",1),("B",3)]`, scoring `"B"` gives
`10` and `"A"` gives `3.33`. -/
theorem claim_C1_structured_scoring :
    (∀ (q : Question) (a : String) (c : QuestionChoice) (cs : List QuestionChoice),
      q.choices = Choices.objs (c :: cs) →
      q.weight ≠ 0 →
      specMaxWeight c cs ≠ 0 →
      calculatePoints q a =
        some (toFixed2 (specSelectedWeight (c :: cs) a / specMaxWeight c cs * q.weight))) ∧
    calculatePoints exampleQuestion "B" = some 10 ∧
    calculatePoints exampleQuestion "A" = some (333 / 100) := by
  refine ⟨?_, ?_, ?_⟩
  · intro q a c cs hch hw hmw
    rw [calculatePoints_objs q a c cs hch, if_neg hmw,
      show jsOr q.weight 1 = q.weight from by rw [jsOr, if_neg hw]]
  · simp [calculatePoints, exampleQuestion, toFixed2, jsOr]
    norm_num [round_eq]
  · simp [calculatePoints, exampleQuestion, toFixed2, jsOr]
    norm_num [round_eq]

/-- Witness for C1: the general clause applied to the spec's example
question and choice `"B"`. -/
theorem claim_C1_structured_scoring_witness :
    calculatePoints exampleQuestion "B" =
      some (toFixed2 (specSelectedWeight [⟨"A", 1⟩, ⟨"B", 3⟩] "B" /
        specMaxWeight ⟨"A", 1⟩ [⟨"B", 3⟩] * exampleQuestion.weight)) :=
  claim_C1_structured_scoring.1 exampleQuestion "B" ⟨"A", 1⟩ [⟨"B", 3⟩] rfl
    (by norm_num [exampleQuestion])
    (by simp [specMaxWeight])

/-- The counterexample question for C2: legacy bare-string choices and a
weight (`1/8 = 0.125`) with more than two decimal places. -/
def legacyQuestion : Question :=
  { id := "q-l", text := "Q", choices := Choices.strs ["A"], section_ := "s", weight := 1 / 8 }

/-- Counterexample to C2 as stated: on a legacy question of weight `0.125`,
scoring the listed choice `"A"` returns the rounded value `0.13`, not the
question's weight. -/
theorem claim_C2_counterexample :
    calculatePoints legacyQuestion "A" = some (13 / 100) ∧
    (13 / 100 : ℚ) ≠ legacyQuestion.weight := by
  constructor
  · simp [calculatePoints, legacyQuestion, toFixed2, jsOr]
    norm_num [round_eq]
  · norm_num [legacyQuestion]

/-- C2 (amended): for a question in legacy bare-string form with positive
weight, scoring any listed choice yields the question's weight rounded to
two decimal places (so exactly the weight whenever the weight has at most
two decimals). -/
theorem claim_C2_legacy_scoring (q : Question) (cs : List String) (a : String)
    (hch : q.choices = Choices.strs cs) (ha : a ∈ cs) (hw : q.weight ≠ 0) :
    calculatePoints q a = some (toFixed2 q.weight) := by
  rw [calculatePoints, hch]
  simp [jsOr, hw]

/-- Witness for C2 (amended): a legacy question of weight 5 scores its
listed choice as `toFixed2 5`. -/
theorem claim_C2_legacy_scoring_witness :
    calculatePoints
      { id := "q-w2", text := "Q", choices := Choices.strs ["A"], section_ := "s", weight := 5 }
      "A" = some (toFixed2 5) :=
  claim_C2_legacy_scoring _ ["A"] "A" rfl (by simp) (by norm_num)

/-- The all-zero-weight question of C3. -/
def zeroWeightQuestion : Question :=
  { id := "q-z", text := "Q", choices := Choices.objs [⟨"A", 0⟩], section_ := "s", weight := 1 }

/-- C3: on a structured question all of whose choice weights are 0, the code
divides 0 by 0 and returns the non-finite result (modelled `none`) instead
of the 0 the spec requires callers to substitute. -/
theorem claim_C3_zero_maxweight :
    calculatePoints zeroWeightQuestion "A" = none ∧
    calculatePoints zeroWeightQuestion "A" ≠ some 0 := by
  constructor
  · simp [calculatePoints, zeroWeightQuestion, jsOr]
  · simp [calculatePoints, zeroWeightQuestion, jsOr]

/-- The point value a claim-side reader would assign: the recorded value,
defaulting only a missing value to 1. -/
def specPointValue (p : Option ℚ) : ℚ := p.getD 1

/-- An answer whose recorded point value is exactly 0. -/
def zeroPointsAnswer : Answer :=
  { id := "a0", answer := "A", points := some 0, question_id := "q1",
    team_id := "X", judge_id := "j1", session_id := "s1" }

/-- Counterexample to C4 as stated: on a single answer with recorded points
0, the code's leaderboard gives team `"X"` a total of 1, while the sum of
point values with only missing values defaulted to 1 is 0. -/
theorem claim_C4_counterexample :
    teamTotal (calculateLeaderboardFromAnswers [zeroPointsAnswer]) "X" = some 1 ∧
    ([zeroPointsAnswer].map (fun a => specPointValue a.points)).sum = 0 := by
  constructor
  · rw [teamTotal_leaderboard]
    simp [zeroPointsAnswer, sumPointsFor, pointsOrOne]
  · simp [zeroPointsAnswer, specPointValue]

/-- C4 (amended): the leaderboard groups answers by `team_id`, sums each
team's point values with a missing or zero value counted as 1
(`sumPointsFor`), and returns the per-team totals sorted descending, ties
in first-seen team order (`teamsWithTotal`). -/
theorem claim_C4_aggregate (l : List Answer) :
    (∀ t : String, teamTotal (calculateLeaderboardFromAnswers l) t =
      if t ∈ l.map (fun a => a.team_id) then some (sumPointsFor l t) else none) ∧
    (calculateLeaderboardFromAnswers l).Pairwise (fun a b => b.totalPoints ≤ a.totalPoints) ∧
    (∀ q : ℚ, ((calculateLeaderboardFromAnswers l).filter (fun e => e.totalPoints = q)).map
      (fun e => e.teamName) = teamsWithTotal l q) := by
  refine ⟨fun t => teamTotal_leaderboard l t, ?_, fun q => leaderboard_tie_order l q⟩
  rw [calculateLeaderboardFromAnswers]
  exact sortDesc_pairwise _ _

/-- C5: aggregation is permutation invariant — permuted answer lists give
every team the same total. -/
theorem claim_C5_perm_invariant (l l2 : List Answer) (hp : l.Perm l2) (t : String) :
    teamTotal (calculateLeaderboardFromAnswers l) t =
      teamTotal (calculateLeaderboardFromAnswers l2) t := by
  rw [teamTotal_leaderboard, teamTotal_leaderboard]
  have hmem : (t ∈ l.map (fun a => a.team_id)) ↔ (t ∈ l2.map (fun a => a.team_id)) :=
    (hp.map _).mem_iff
  have hsum : sumPointsFor l t = sumPointsFor l2 t := by
    rw [sumPointsFor, sumPointsFor]
    exact List.Perm.sum_eq ((hp.filter _).map _)
  by_cases hm : t ∈ l.map (fun a => a.team_id)
  · rw [if_pos hm, if_pos (hmem.mp hm), hsum]
  · rw [if_neg hm, if_neg (fun hc => hm (hmem.mpr hc))]

/-- Two answers for distinct teams, used to witness C5. -/
def ansA : Answer :=
  { id := "a1", answer := "A", points := some 2, question_id := "q1",
    team_id := "X", judge_id := "j1", session_id := "s1" }

/-- Second witness answer for C5. -/
def ansB : Answer :=
  { id := "a2", answer := "B", points := some 3, question_id := "q1",
    team_id := "Y", judge_id := "j2", session_id := "s1" }

/-- Witness for C5: swapping a two-answer list leaves team `"X"`'s total
unchanged. -/
theorem claim_C5_perm_invariant_witness :
    teamTotal (calculateLeaderboardFromAnswers [ansA, ansB]) "X" =
      teamTotal (calculateLeaderboardFromAnswers [ansB, ansA]) "X" :=
  claim_C5_perm_invariant [ansA, ansB] [ansB, ansA] (List.Perm.swap ansB ansA []) "X"

/-- C6: ending a session saves one result row per team, keyed on
`(session, team)` via upsert, and running the save a second time over the
same answers leaves the table unchanged (identical rows, no duplicates). -/
theorem claim_C6_end_idempotent (l : List Answer) (sid : String) (tbl : List SessionResultRow) :
    endSessionSave l sid (endSessionSave l sid tbl) = endSessionSave l sid tbl ∧
    (sessionResultRows l sid).map (fun r => r.team_id) =
      firstSeenTeams (l.map (fun a => a.team_id)) ∧
    (sessionResultRows l sid).all (fun r => r.session_id = sid) = true := by
  refine ⟨?_, sessionResultRows_keys l sid, ?_⟩
  · exact foldl_upsert_idem (sessionResultRows l sid) tbl (sessionResultRows_pairwise l sid)
  · rw [List.all_eq_true]
    intro r hr
    rcases List.mem_map.mp hr with ⟨e, _, he⟩
    rw [← he]
    simp

theorem next_index_eq (i N : Nat) (h : i < N) :
    (if i < N - 1 then i + 1 else 0) = (i + 1) % N := by
  by_cases hlt : i < N - 1
  · rw [if_pos hlt, Nat.mod_eq_of_lt (by omega)]
  · rw [if_neg hlt]
    have hieq : i = N - 1 := by omega
    rw [hieq, show N - 1 + 1 = N from by omega, Nat.mod_self]

theorem prev_index_eq (i N : Nat) (h : i < N) :
    (if 0 < i then i - 1 else N - 1) = (i + N - 1) % N := by
  by_cases hpos : 0 < i
  · rw [if_pos hpos, show i + N - 1 = (i - 1) + N from by omega, Nat.add_mod_right,
      Nat.mod_eq_of_lt (by omega)]
  · rw [if_neg hpos, show i + N - 1 = N - 1 from by omega,
      Nat.mod_eq_of_lt (by omega)]

/-- C7: with a non-empty team list and an in-range index, `handleNextTeam`
moves the index to `(i + 1) % N` (wrapping from the last index to 0) and
`handlePreviousTeam` moves it to `(i + N - 1) % N` (wrapping from 0 to
`N - 1`), each setting the current team to the team at the new index; with
an empty team list both are no-ops. -/
theorem claim_C7_advance (s : HostTeamState) :
    (s.selectedTeams = [] → handleNextTeam s = s ∧ handlePreviousTeam s = s) ∧
    (s.currentTeamIndex < s.selectedTeams.length →
      (handleNextTeam s).currentTeamIndex =
        (s.currentTeamIndex + 1) % s.selectedTeams.length ∧
      (handleNextTeam s).currentTeam =
        s.selectedTeams.getD ((s.currentTeamIndex + 1) % s.selectedTeams.length) "" ∧
      (handlePreviousTeam s).currentTeamIndex =
        (s.currentTeamIndex + s.selectedTeams.length - 1) % s.selectedTeams.length ∧
      (handlePreviousTeam s).currentTeam =
        s.selectedTeams.getD
          ((s.currentTeamIndex + s.selectedTeams.length - 1) % s.selectedTeams.length) "") := by
  constructor
  · intro h
    constructor
    · rw [handleNextTeam, if_pos (by rw [h]; rfl)]
    · rw [handlePreviousTeam, if_pos (by rw [h]; rfl)]
  · intro hi
    have hN0 : ¬ (s.selectedTeams.length = 0) := by omega
    refine ⟨?_, ?_, ?_, ?_⟩
    · rw [handleNextTeam, if_neg hN0]
      exact next_index_eq s.currentTeamIndex s.selectedTeams.length hi
    · rw [handleNextTeam, if_neg hN0]
      show s.selectedTeams.getD (if s.currentTeamIndex < s.selectedTeams.length - 1
        then s.currentTeamIndex + 1 else 0) "" = _
      rw [next_index_eq s.currentTeamIndex s.selectedTeams.length hi]
    · rw [handlePreviousTeam, if_neg hN0]
      exact prev_index_eq s.currentTeamIndex s.selectedTeams.length hi
    · rw [handlePreviousTeam, if_neg hN0]
      show s.selectedTeams.getD (if 0 < s.currentTeamIndex
        then s.currentTeamIndex - 1 else s.selectedTeams.length - 1) "" = _
      rw [prev_index_eq s.currentTeamIndex s.selectedTeams.length hi]

/-- A three-team host state at the last index, used to witness C7. -/
def advState : HostTeamState :=
  { selectedTeams := ["X", "Y", "Z"], currentTeamIndex := 2, currentTeam := "Z" }

/-- Witness for C7: from the last index of a three-team roster, next wraps
to index 0 and previous moves to index 1. -/
theorem claim_C7_advance_witness :
    (handleNextTeam advState).currentTeamIndex = (2 + 1) % 3 ∧
    (handlePreviousTeam advState).currentTeamIndex = (2 + 3 - 1) % 3 := by
  have h := (claim_C7_advance advState).2 (by decide)
  exact ⟨h.1, h.2.2.1⟩

/-- Two broadcast questions, used in the C8 counterexample. -/
def q1 : Question :=
  { id := "q1", text := "Q1", choices := Choices.strs ["A", "B"], section_ := "s", weight := 1 }

/-- Second broadcast question, used in the C8 counterexample. -/
def q2 : Question :=
  { id := "q2", text := "Q2", choices := Choices.strs ["A", "B"], section_ := "s", weight := 1 }

/-- A judge view with two broadcast questions but only one recorded answer. -/
def partialJudgeView : JudgeView :=
  { judgeState := JudgeState.judging, questions := [q1, q2],
    selectedAnswers := [("q1", "A")] }

/-- Counterexample to C8 as stated: a judge holding answers for only one of
two broadcast questions still transitions to `waiting` on submit. -/
theorem claim_C8_counterexample :
    (handleSubmitFinal partialJudgeView).judgeState = JudgeState.waiting ∧
    partialJudgeView.questions.all
      (fun q => partialJudgeView.selectedAnswers.any (fun p => p.1 = q.id)) = false := by
  constructor
  · rfl
  · simp [partialJudgeView, q1, q2]

/-- C8 (amended): submitting with no recorded answer is rejected and leaves
the view unchanged; submitting with at least one recorded answer moves the
judge to `waiting` — answers to all broadcast questions are not required. -/
theorem claim_C8_submit (v : JudgeView) :
    (v.selectedAnswers = [] → handleSubmitFinal v = v) ∧
    (v.selectedAnswers ≠ [] → (handleSubmitFinal v).judgeState = JudgeState.waiting) := by
  constructor
  · intro h
    rw [handleSubmitFinal, if_pos (by rw [h]; rfl)]
  · intro h
    rw [handleSubmitFinal, if_neg (by simpa using h)]

/-- Witness for C8 (amended): the empty-answers rejection and the
one-answer transition, on concrete views. -/
theorem claim_C8_submit_witness :
    handleSubmitFinal
        { judgeState := JudgeState.judging, questions := [q1], selectedAnswers := [] } =
      { judgeState := JudgeState.judging, questions := [q1], selectedAnswers := [] } ∧
    (handleSubmitFinal partialJudgeView).judgeState = JudgeState.waiting :=
  ⟨(claim_C8_submit _).1 rfl, (claim_C8_submit partialJudgeView).2 (by simp [partialJudgeView])⟩

/-- A host state with no questions selected, used to witness C9. -/
def emptySelectionHost : HostSendState :=
  { selectedQuestions := [], questions := [q1], sessionId := "abc12345", currentTeam := "X" }

/-- An empty remote state, used to witness C9. -/
def emptyRemote : RemoteState := { sessions := [], broadcasts := [] }

/-- C9: when the question selection is empty, no session is active, or no
team is active, `handleSendQuestions` rejects with a validation message and
leaves the remote state (session table and broadcast stream) unchanged. -/
theorem claim_C9_broadcast_guards (h : HostSendState) (r : RemoteState)
    (hfail : h.selectedQuestions = [] ∨ h.sessionId = "لم تبدأ" ∨ h.currentTeam = "لا يوجد") :
    (handleSendQuestions h r).1 = r ∧ ((handleSendQuestions h r).2).isRejected = true := by
  rw [handleSendQuestions]
  rcases hfail with h1 | h1 | h1
  · rw [if_pos (by rw [h1]; rfl)]
    exact ⟨rfl, rfl⟩
  · by_cases h0 : h.selectedQuestions.length = 0
    · rw [if_pos h0]
      exact ⟨rfl, rfl⟩
    · rw [if_neg h0, if_pos h1]
      exact ⟨rfl, rfl⟩
  · by_cases h0 : h.selectedQuestions.length = 0
    · rw [if_pos h0]
      exact ⟨rfl, rfl⟩
    · rw [if_neg h0]
      by_cases h2 : h.sessionId = "لم تبدأ"
      · rw [if_pos h2]
        exact ⟨rfl, rfl⟩
      · rw [if_neg h2, if_pos h1]
        exact ⟨rfl, rfl⟩

/-- Witness for C9: an empty question selection is rejected with the remote
state untouched. -/
theorem claim_C9_broadcast_guards_witness :
    (handleSendQuestions emptySelectionHost emptyRemote).1 = emptyRemote ∧
    ((handleSendQuestions emptySelectionHost emptyRemote).2).isRejected = true :=
  claim_C9_broadcast_guards emptySelectionHost emptyRemote (Or.inl rfl)

/-- C10: in all three aggregation paths (live leaderboard, session
finalization, results page) an answer whose recorded points value is
exactly 0 contributes 1 to its team's total, because `points || 1` treats a
stored 0 like a missing value; on the singleton list of such an answer the
aggregated total (1) strictly exceeds the sum of the recorded point values
(0). -/
theorem claim_C10_zero_points (l : List Answer) (a : Answer) (h0 : a.points = some 0) :
    pointsOrOne a.points = 1 ∧
    teamTotal (calculateLeaderboardFromAnswers (l ++ [a])) a.team_id =
      some (sumPointsFor l a.team_id + 1) ∧
    (lookupVal (endTeamScores (l ++ [a])) a.team_id).map (fun d => d.totalPoints) =
      some (sumPointsFor l a.team_id + 1) ∧
    resultScoreOf (calculateTeamResults (l ++ [a])) a.team_id =
      some (sumPointsFor l a.team_id + 1) ∧
    teamTotal (calculateLeaderboardFromAnswers [a]) a.team_id = some 1 ∧
    ([a].map (fun x => x.points.getD 0)).sum = 0 := by
  have hone : pointsOrOne a.points = 1 := by
    rw [h0]
    simp [pointsOrOne]
  have hmem : a.team_id ∈ (l ++ [a]).map (fun x => x.team_id) := by
    rw [List.map_append]
    exact List.mem_append.mpr (Or.inr (by simp))
  have hs : sumPointsFor (l ++ [a]) a.team_id = sumPointsFor l a.team_id + 1 := by
    rw [sumPointsFor, sumPointsFor, List.filter_append, List.map_append, List.sum_append]
    simp [hone]
  refine ⟨hone, ?_, ?_, ?_, ?_, ?_⟩
  · rw [teamTotal_leaderboard, if_pos hmem, hs]
  · rw [lookupVal_endTeamScores, if_pos hmem]
    simp [hs]
  · rw [resultScoreOf_calculateTeamResults, if_pos hmem, hs]
  · rw [teamTotal_leaderboard, if_pos (by simp)]
    rw [show sumPointsFor [a] a.team_id = 1 from by simp [sumPointsFor, hone]]
  · simp [h0]

/-- Witness for C10: the zero-points answer alone gives its team total 1
while its recorded points sum to 0. -/
theorem claim_C10_zero_points_witness :
    pointsOrOne zeroPointsAnswer.points = 1 ∧
    teamTotal (calculateLeaderboardFromAnswers ([] ++ [zeroPointsAnswer]))
        zeroPointsAnswer.team_id =
      some (sumPointsFor [] zeroPointsAnswer.team_id + 1) ∧
    (lookupVal (endTeamScores ([] ++ [zeroPointsAnswer])) zeroPointsAnswer.team_id).map
        (fun d => d.totalPoints) =
      some (sumPointsFor [] zeroPointsAnswer.team_id + 1) ∧
    resultScoreOf (calculateTeamResults ([] ++ [zeroPointsAnswer])) zeroPointsAnswer.team_id =
      some (sumPointsFor [] zeroPointsAnswer.team_id + 1) ∧
    teamTotal (calculateLeaderboardFromAnswers [zeroPointsAnswer]) zeroPointsAnswer.team_id =
      some 1 ∧
    ([zeroPointsAnswer].map (fun x => x.points.getD 0)).sum = 0 :=
  claim_C10_zero_points [] zeroPointsAnswer rfl
